import Mathlib

/-!
Verification of the elasticsearch scaler (`pkg/scalers/elasticsearch_scaler.go`).

The Go source is shallowly embedded: pure helpers become Lean functions on
`String` / `List Char` / `Int` / `ℚ`; fallible code returns `Except String`
(the `String` being the Go error message); the Go runtime panic that an
out-of-range slice index raises is modelled by `Option` (`none` = panic).
External collaborators (the elasticsearch client, the gjson path evaluator)
are abstracted as inputs: the transport outcome is an `Except String` value
and the outcome of evaluating the gjson path expression on the response body
is a `GjsonResult`.
-/

namespace ElasticsearchScaler

/-- Trim characters satisfying `p` from both ends of a character list.
This is the behaviour of Go `strings.Trim` with a one-character cutset. -/
def trimBy (p : Char → Bool) (l : List Char) : List Char :=
  ((l.dropWhile p).reverse.dropWhile p).reverse

/-- Go `strings.Split` on a single-character separator, at the character-list
level: splits at every occurrence of `sep`, preserving empty tokens, and
always returns at least one token. -/
def splitCh (sep : Char) : List Char → List (List Char)
  | [] => [[]]
  | c :: rest =>
    if c = sep then [] :: splitCh sep rest
    else
      match splitCh sep rest with
      | [] => [[c]]
      | t :: ts => (c :: t) :: ts

/-- Embedding of `splitAndTrimBySep` (elasticsearch_scaler.go, lines 270-276):
`strings.Split` on the separator, then `strings.Trim(x, " ")` on every token.
The repository only ever calls it with the single-character separators
`","`, `";"` and `":"`, so the separator is modelled as a `Char`. -/
def splitAndTrimBySep (s : String) (sep : Char) : List String :=
  (splitCh sep s.data).map (fun l => String.mk (trimBy (fun c => c = ' ') l))

/-- Decimal value of a run of characters: `some n` when the list is non-empty
and all characters are ASCII digits, `none` otherwise. -/
def decDigits (l : List Char) : Option Nat :=
  if l.isEmpty then none
  else l.foldl
    (fun acc c => acc.bind (fun n => if c.isDigit then some (10 * n + (c.toNat - 48)) else none))
    (some 0)

/-- Model of Go `strconv.Atoi`: an optional sign followed by at least one
decimal digit; anything else (empty string, spaces, other characters) is a
parse error. The 64-bit range check is immaterial to the verified claims and
is not modelled. -/
def goAtoi (s : String) : Option Int :=
  match s.data with
  | '-' :: rest => (decDigits rest).map (fun n => -(n : Int))
  | '+' :: rest => (decDigits rest).map (fun n => (n : Int))
  | l => (decDigits l).map (fun n => (n : Int))

/-- Model of Go `strconv.ParseBool`: accepts exactly the twelve literals Go
accepts. -/
def goParseBool (s : String) : Option Bool :=
  if s = "1" ∨ s = "t" ∨ s = "T" ∨ s = "TRUE" ∨ s = "true" ∨ s = "True" then some true
  else if s = "0" ∨ s = "f" ∨ s = "F" ∨ s = "FALSE" ∨ s = "false" ∨ s = "False" then some false
  else none

/-- The type tag of a gjson result (`gjson.Type`). A path that does not
resolve yields the zero value `Null`, the same tag as a JSON `null`;
arrays and objects are both tagged `JSON`. -/
inductive GjsonType
  | Null
  | False
  | True
  | Number
  | String
  | JSON
deriving DecidableEq, Repr

/-- Rendering of `gjson.Type.String()`. -/
def gjsonTypeName : GjsonType → String
  | .Null => "Null"
  | .False => "False"
  | .True => "True"
  | .Number => "Number"
  | .String => "String"
  | .JSON => "JSON"

/-- A gjson result: the type tag, the string payload (`Str`, meaningful when
the tag is `String`) and the numeric payload (`Num`, meaningful when the tag
is `Number`). The Go `float64` payload is modelled by a rational. -/
structure GjsonResult where
  type : GjsonType
  str : String
  num : ℚ
deriving DecidableEq

/-- Go conversion `int(f)` of a `float64`: truncation toward zero. -/
def intTrunc (q : ℚ) : Int :=
  Int.sign q.num * ((q.num.natAbs / q.den : ℕ) : ℤ)

/-- The error message format of `getValueFromSearch`. -/
def invalidTypeMsg (s : String) : String :=
  "valueLocation must point to value of type number but got: '" ++ s ++ "'"

/-- Embedding of `getValueFromSearch` (elasticsearch_scaler.go, lines
217-231), as a function of the gjson result that `gjson.GetBytes(body,
valueLocation)` produced (the third-party path evaluator is abstracted as
this input). A `String` result is fed to `strconv.Atoi`; a `Number` result
is truncated with `int(r.Num)`; every other tag is an error citing the name
of the tag. -/
def getValueFromSearch (r : GjsonResult) : Except String Int :=
  if r.type = GjsonType.String then
    match goAtoi r.str with
    | some q => Except.ok q
    | none => Except.error (invalidTypeMsg r.str)
  else if r.type ≠ GjsonType.Number then
    Except.error (invalidTypeMsg (gjsonTypeName r.type))
  else
    Except.ok (intTrunc r.num)

/-- Embedding of the `elasticsearchMetadata` struct. The Go field `unsafeSsl`
is rendered here as `insecureSsl` (same meaning: skip TLS certificate
verification); `targetValue` is a Go `int`, modelled as `Int`. -/
structure elasticsearchMetadata where
  addresses : List String
  insecureSsl : Bool
  username : String
  password : String
  indexes : List String
  searchTemplateName : String
  parameters : List String
  valueLocation : String
  targetValue : Int
deriving DecidableEq, Repr

/-- Embedding of `ScalerConfig`: the three string maps the parser reads.
Go maps are modelled as partial lookup functions; a read of a missing key in
Go yields the zero value `""`, which `lookupD` reproduces. -/
structure ScalerConfig where
  TriggerMetadata : String → Option String
  AuthParams : String → Option String
  ResolvedEnv : String → Option String

/-- Read of a Go string map: the value when the key is present, `""`
otherwise. -/
def lookupD (m : String → Option String) (k : String) : String :=
  (m k).getD ""

/-- Modelled from the spec: `GetFromAuthOrMeta` is repository code that is
not under the provided source tree (only its caller is). Per the spec
(section 4.1), a mandatory field may be supplied via either the
auth-parameter map or the trigger-metadata map, auth-parameters take
precedence, and a missing mandatory field fails with an error identifying
the offending field. -/
def GetFromAuthOrMeta (config : ScalerConfig) (field : String) : Except String String :=
  let a := lookupD config.AuthParams field
  let m := lookupD config.TriggerMetadata field
  let result := if a ≠ "" then a else m
  if result = "" then Except.error ("no " ++ field ++ " given")
  else Except.ok result

/-- The `unsafeSsl` step of `parseElasticsearchMetadata` (lines 72-79):
absent means `false`, present means `strconv.ParseBool` with a parse
failure surfaced as an error. -/
def parseInsecureSslField (config : ScalerConfig) : Except String Bool :=
  match config.TriggerMetadata "unsafeSsl" with
  | some val =>
    match goParseBool val with
    | some b => Except.ok b
    | none => Except.error ("error parsing unsafeSsL: " ++ val)
  | none => Except.ok false

/-- The `targetValue` step of `parseElasticsearchMetadata` (lines 114-121):
`strconv.Atoi` on the resolved string, with a parse failure surfaced as an
error. -/
def parseTargetValueField (raw : String) : Except String Int :=
  match goAtoi raw with
  | some n => Except.ok n
  | none => Except.error ("targetValue parsing error " ++ raw)

/-- Embedding of `parseElasticsearchMetadata` (elasticsearch_scaler.go,
lines 61-123), preserving the source order of field resolution and the
short-circuit on the first error. Error message texts for the two parse
failures reproduce the literal format strings with the offending value in
place of the formatted Go error. -/
def parseElasticsearchMetadata (config : ScalerConfig) : Except String elasticsearchMetadata := do
  let addresses ← GetFromAuthOrMeta config "addresses"
  let insecureSsl ← parseInsecureSslField config
  let username :=
    match config.AuthParams "username" with
    | some val => val
    | none =>
      match config.TriggerMetadata "username" with
      | some val => val
      | none => ""
  let password :=
    if lookupD config.AuthParams "password" ≠ "" then
      lookupD config.AuthParams "password"
    else if lookupD config.TriggerMetadata "passwordFromEnv" ≠ "" then
      lookupD config.ResolvedEnv (lookupD config.TriggerMetadata "passwordFromEnv")
    else ""
  let index ← GetFromAuthOrMeta config "index"
  let searchTemplateName ← GetFromAuthOrMeta config "searchTemplateName"
  let parameters :=
    match config.TriggerMetadata "parameters" with
    | some val => splitAndTrimBySep val ';'
    | none => []
  let valueLocation ← GetFromAuthOrMeta config "valueLocation"
  let targetValueRaw ← GetFromAuthOrMeta config "targetValue"
  let targetValue ← parseTargetValueField targetValueRaw
  Except.ok
    { addresses := splitAndTrimBySep addresses ','
      insecureSsl := insecureSsl
      username := username
      password := password
      indexes := splitAndTrimBySep index ';'
      searchTemplateName := searchTemplateName
      parameters := parameters
      valueLocation := valueLocation
      targetValue := targetValue }

/-- The query document built by `buildQuery`: the template id, and the
parameter mapping when non-empty. The Go `map[string]interface{}` is
modelled as an association list with unique keys. -/
structure ESQuery where
  id : String
  params : Option (List (String × String))
deriving DecidableEq, Repr

/-- Insertion into the parameter map: overwrite in place when the key is
already bound, append otherwise (Go map assignment, with the association
list keeping keys unique). -/
def insertKV (m : List (String × String)) (k v : String) : List (String × String) :=
  if m.any (fun kv => kv.fst = k) then
    m.map (fun kv => if kv.fst = k then (k, v) else kv)
  else m ++ [(k, v)]

/-- The loop of `buildQuery` (elasticsearch_scaler.go, lines 201-207):
skip empty tokens, split every other token on `':'` and assign
`parameters[kv[0]] = kv[1]`. The read `kv[1]` is out of range when the
split produced a single token (no colon); that Go runtime panic is
modelled as `none`. -/
def buildParamsLoop (acc : List (String × String)) : List String → Option (List (String × String))
  | [] => some acc
  | p :: rest =>
    if p = "" then buildParamsLoop acc rest
    else
      match splitAndTrimBySep p ':' with
      | k :: v :: _ => buildParamsLoop (insertKV acc k v) rest
      | _ => none

/-- Embedding of `buildQuery` (elasticsearch_scaler.go, lines 200-215):
`id` is the template name and `params` is included only when the
accumulated mapping is non-empty. `none` is the runtime panic on a
malformed parameter token. -/
def buildQuery (metadata : elasticsearchMetadata) : Option ESQuery := do
  let parameters ← buildParamsLoop [] metadata.parameters
  some
    { id := metadata.searchTemplateName
      params := if 0 < parameters.length then some parameters else none }

/-- Embedding of the `elasticsearchScaler` struct; the elasticsearch client
handle is opaque. -/
structure elasticsearchScaler where
  metadata : elasticsearchMetadata
  esClient : Nat
deriving DecidableEq, Repr

/-- Embedding of `NewElasticsearchScaler` (elasticsearch_scaler.go, lines
44-58): metadata parsing, then client construction. The network side of
`newElasticsearchClient` (ping of the engine) is abstracted as the
`clientResult` input. -/
def NewElasticsearchScaler (config : ScalerConfig) (clientResult : Except String Nat) :
    Except String elasticsearchScaler :=
  match parseElasticsearchMetadata config with
  | Except.error err => Except.error ("error parsing elasticsearch metadata: " ++ err)
  | Except.ok meta =>
    match clientResult with
    | Except.error err => Except.error ("error getting elasticsearch client: " ++ err)
    | Except.ok esClient => Except.ok { metadata := meta, esClient := esClient }

/-- Embedding of `Close` (elasticsearch_scaler.go, lines 156-158): the body
is `return nil`; the receiver is untouched, so the result is the unchanged
scaler paired with no error. -/
def Close (s : elasticsearchScaler) : elasticsearchScaler × Option String :=
  (s, none)

/-- Embedding of `getQueryResult` (elasticsearch_scaler.go, lines 171-198)
as a function of the transport outcome: the round trip through the
elasticsearch client and the gjson path evaluation of the response body are
abstracted as an `Except String GjsonResult`; a transport error is
propagated, a response is fed to `getValueFromSearch`. -/
def getQueryResult (searchResult : Except String GjsonResult) : Except String Int :=
  match searchResult with
  | Except.error e => Except.error e
  | Except.ok r => getValueFromSearch r

/-- Embedding of `IsActive` (elasticsearch_scaler.go, lines 161-168): the
pipeline error is returned unchanged, otherwise the activity bit is
`messages > 0`. -/
def IsActive (searchResult : Except String GjsonResult) : Except String Bool :=
  match getQueryResult searchResult with
  | Except.error e => Except.error e
  | Except.ok messages => Except.ok (decide (0 < messages))

/-- The part of `external_metrics.ExternalMetricValue` the scaler fills in
(the observation timestamp is a wall-clock side effect and is not
modelled). -/
structure ExternalMetricValue where
  metricName : String
  value : Int
deriving DecidableEq, Repr

/-- Embedding of `GetMetrics` (elasticsearch_scaler.go, lines 254-267): the
pipeline error is wrapped as `error inspecting elasticsearch: ...`,
otherwise the extracted integer becomes the metric value. -/
def GetMetrics (metricName : String) (searchResult : Except String GjsonResult) :
    Except String ExternalMetricValue :=
  match getQueryResult searchResult with
  | Except.error e => Except.error ("error inspecting elasticsearch: " ++ e)
  | Except.ok num => Except.ok { metricName := metricName, value := num }

/-- The error component of an `Except` result, for comparing the failures
of two operations. -/
def errorOf {α : Type} : Except String α → Option String
  | Except.error e => some e
  | Except.ok _ => none

/-- Decimal digit characters of a natural number, most significant first
(`"0"` for zero). -/
def natChars (n : Nat) : List Char :=
  if n = 0 then ['0'] else (Nat.digits 10 n).reverse.map Nat.digitChar

/-- Decimal rendering of an integer as a character list: an optional leading
minus sign followed by the digits. -/
def intChars (i : Int) : List Char :=
  if i < 0 then '-' :: natChars i.natAbs else natChars i.natAbs

/-- Modelled from the spec: `kedautil.NormalizeString` is repository code
that is not under the provided source tree. The spec does not ask for any
rewriting of the template name when forming the metric name, so the
normalization is modelled as the identity. -/
def NormalizeString (s : String) : String := s

/-- Modelled from the spec: `GenerateMetricNameWithIndex` is repository code
that is not under the provided source tree. The spec says the metric name
is derived deterministically from both the index argument (the source
passes the configured target value there) and the base metric name, in a
way that never collides across different configurations; it is modelled as
the decimal rendering of the index, a dash, then the base name. -/
def GenerateMetricNameWithIndex (idx : Int) (metricName : String) : String :=
  String.mk (intChars idx ++ '-' :: metricName.data)

/-- The target half of the produced `v2beta2.MetricSpec`. -/
structure MetricTarget where
  type : String
  averageValue : Int
deriving DecidableEq, Repr

/-- The external metric identifier and target produced for the HPA. -/
structure MetricSpec where
  name : String
  target : MetricTarget
deriving DecidableEq, Repr

/-- Embedding of `GetMetricSpecForScaling` (elasticsearch_scaler.go, lines
234-251): the metric name is
`GenerateMetricNameWithIndex(targetValue, NormalizeString("elasticsearch-" + searchTemplateName))`
and the target is an average-value target equal to `targetValue`. -/
def GetMetricSpecForScaling (m : elasticsearchMetadata) : MetricSpec :=
  let metricName := NormalizeString ("elasticsearch-" ++ m.searchTemplateName)
  { name := GenerateMetricNameWithIndex m.targetValue metricName
    target := { type := "AverageValue", averageValue := m.targetValue } }

/-! ## Lemmas about splitting and trimming -/

theorem splitCh_ne_nil (sep : Char) (l : List Char) : splitCh sep l ≠ [] := by
  cases l with
  | nil => simp [splitCh]
  | cons c rest =>
    by_cases h : c = sep
    · simp [splitCh, h]
    · simp only [splitCh, if_neg h]
      cases splitCh sep rest <;> simp

theorem splitCh_eq_splitOn (sep : Char) (l : List Char) : splitCh sep l = l.splitOn sep := by
  induction l with
  | nil => rfl
  | cons c rest ih =>
    by_cases h : c = sep
    · subst h
      simp only [splitCh, if_pos rfl, List.splitOn, List.splitOnP_cons, beq_self_eq_true,
        if_pos, List.cons.injEq, true_and]
      rw [List.splitOn] at ih
      exact ih
    · have hne : splitCh sep rest ≠ [] := splitCh_ne_nil sep rest
      cases hm : splitCh sep rest with
      | nil => exact absurd hm hne
      | cons t ts =>
        have hbeq : (c == sep) = false := by simp [h]
        simp only [splitCh, if_neg h, hm, List.splitOn, List.splitOnP_cons, hbeq,
          Bool.false_eq_true, if_false]
        rw [List.splitOn] at ih
        rw [← ih, hm]
        rfl

theorem length_splitCh (sep : Char) (l : List Char) :
    (splitCh sep l).length = l.count sep + 1 := by
  induction l with
  | nil => simp [splitCh]
  | cons c rest ih =>
    by_cases h : c = sep
    · simp [splitCh, h, List.count_cons, ih]
    · cases hm : splitCh sep rest with
      | nil => exact absurd hm (splitCh_ne_nil sep rest)
      | cons t ts =>
        rw [hm] at ih
        have hbeq : (c == sep) = false := by simp [h]
        simp only [splitCh, if_neg h, hm, List.length_cons, List.count_cons, hbeq,
          Bool.false_eq_true, if_false]
        simpa using ih

theorem length_splitAndTrimBySep (s : String) (sep : Char) :
    (splitAndTrimBySep s sep).length = s.data.count sep + 1 := by
  rw [splitAndTrimBySep, List.length_map, length_splitCh]

theorem head?_dropWhile_no (p : Char → Bool) :
    ∀ (l : List Char) (c : Char), (l.dropWhile p).head? = some c → p c = false := by
  intro l
  induction l with
  | nil => intro c hc; simp at hc
  | cons a t ih =>
    intro c hc
    rw [List.dropWhile_cons] at hc
    by_cases ha : p a = true
    · exact ih c (by simpa [ha] using hc)
    · have : a = c := by simpa [ha] using hc
      subst this
      simpa using ha

theorem getLast?_dropWhile (p : Char → Bool) :
    ∀ l : List Char, l.dropWhile p ≠ [] → (l.dropWhile p).getLast? = l.getLast? := by
  intro l
  induction l with
  | nil => intro h; simp at h
  | cons a t ih =>
    intro h
    rw [List.dropWhile_cons] at h ⊢
    by_cases ha : p a = true
    · rw [if_pos ha] at h ⊢
      have ht : t ≠ [] := by
        intro he
        rw [he] at h
        simp at h
      rw [ih h]
      cases t with
      | nil => exact absurd rfl ht
      | cons b u => rw [List.getLast?_cons_cons]
    · simp [ha]

theorem head?_trimBy (p : Char → Bool) (l : List Char) (c : Char)
    (h : (trimBy p l).head? = some c) : p c = false := by
  rw [trimBy, List.head?_reverse] at h
  have hne : (l.dropWhile p).reverse.dropWhile p ≠ [] := by
    intro he
    rw [he] at h
    simp at h
  rw [getLast?_dropWhile p _ hne, List.getLast?_reverse] at h
  exact head?_dropWhile_no p _ c h

theorem getLast?_trimBy (p : Char → Bool) (l : List Char) (c : Char)
    (h : (trimBy p l).getLast? = some c) : p c = false := by
  rw [trimBy, List.getLast?_reverse] at h
  exact head?_dropWhile_no p _ c h

/-! ## Lemmas about the buildQuery parameter loop -/

theorem insertKV_ne_nil (m : List (String × String)) (k v : String) :
    insertKV m k v ≠ [] := by
  rw [insertKV]
  by_cases h : m.any (fun kv => kv.fst = k)
  · rw [if_pos h]
    intro he
    rw [List.map_eq_nil_iff] at he
    subst he
    simp at h
  · rw [if_neg h]
    simp

theorem buildParamsLoop_eq_none_iff :
    ∀ (ps : List String) (acc : List (String × String)),
      buildParamsLoop acc ps = none ↔ ∃ p ∈ ps, p ≠ "" ∧ ':' ∉ p.data := by
  intro ps
  induction ps with
  | nil => intro acc; simp [buildParamsLoop]
  | cons p rest ih =>
    intro acc
    by_cases hp : p = ""
    · subst hp
      simp only [buildParamsLoop, eq_self_iff_true, if_true]
      rw [ih]
      constructor
      · rintro ⟨q, hq, h1, h2⟩
        exact ⟨q, List.mem_cons_of_mem _ hq, h1, h2⟩
      · rintro ⟨q, hq, h1, h2⟩
        rcases List.mem_cons.mp hq with rfl | hq'
        · exact absurd rfl h1
        · exact ⟨q, hq', h1, h2⟩
    · have hlen := length_splitAndTrimBySep p ':'
      cases hsp : splitAndTrimBySep p ':' with
      | nil => rw [hsp] at hlen; simp at hlen
      | cons k tail =>
        cases tail with
        | nil =>
          have hcount : p.data.count ':' = 0 := by
            rw [hsp] at hlen
            simpa using hlen.symm
          have hnotin : ':' ∉ p.data := List.count_eq_zero.mp hcount
          simp only [buildParamsLoop, if_neg hp, hsp]
          constructor
          · intro _
            exact ⟨p, List.mem_cons_self p rest, hp, hnotin⟩
          · intro _
            trivial
        | cons v ts =>
          have hmem : ':' ∈ p.data := by
            rw [hsp] at hlen
            simp only [List.length_cons] at hlen
            have : 0 < p.data.count ':' := by omega
            exact List.count_pos_iff.mp this
          simp only [buildParamsLoop, if_neg hp, hsp]
          rw [ih]
          constructor
          · rintro ⟨q, hq, h1, h2⟩
            exact ⟨q, List.mem_cons_of_mem _ hq, h1, h2⟩
          · rintro ⟨q, hq, h1, h2⟩
            rcases List.mem_cons.mp hq with rfl | hq'
            · exact absurd hmem h2
            · exact ⟨q, hq', h1, h2⟩

theorem buildParamsLoop_ne_nil :
    ∀ (ps : List String) (acc res : List (String × String)),
      buildParamsLoop acc ps = some res → acc ≠ [] → res ≠ [] := by
  intro ps
  induction ps with
  | nil =>
    intro acc res h hacc
    simp only [buildParamsLoop, Option.some.injEq] at h
    rwa [← h]
  | cons p rest ih =>
    intro acc res h hacc
    by_cases hp : p = ""
    · subst hp
      simp only [buildParamsLoop, if_pos rfl] at h
      exact ih acc res h hacc
    · simp only [buildParamsLoop, if_neg hp] at h
      cases hsp : splitAndTrimBySep p ':' with
      | nil => rw [hsp] at h; exact absurd h (by simp)
      | cons k tail =>
        cases tail with
        | nil => rw [hsp] at h; exact absurd h (by simp)
        | cons v ts =>
          rw [hsp] at h
          exact ih _ res h (insertKV_ne_nil acc k v)

theorem buildParamsLoop_res_nil_iff :
    ∀ (ps : List String) (acc res : List (String × String)),
      buildParamsLoop acc ps = some res →
      (res = [] ↔ (acc = [] ∧ ∀ p ∈ ps, p = "")) := by
  intro ps
  induction ps with
  | nil =>
    intro acc res h
    simp only [buildParamsLoop, Option.some.injEq] at h
    subst h
    simp
  | cons p rest ih =>
    intro acc res h
    by_cases hp : p = ""
    · subst hp
      simp only [buildParamsLoop, if_pos rfl] at h
      rw [ih acc res h]
      simp
    · simp only [buildParamsLoop, if_neg hp] at h
      cases hsp : splitAndTrimBySep p ':' with
      | nil => rw [hsp] at h; exact absurd h (by simp)
      | cons k tail =>
        cases tail with
        | nil => rw [hsp] at h; exact absurd h (by simp)
        | cons v ts =>
          rw [hsp] at h
          have hres : res ≠ [] :=
            buildParamsLoop_ne_nil rest _ res h (insertKV_ne_nil acc k v)
          constructor
          · intro he
            exact absurd he hres
          · rintro ⟨-, hall⟩
            exact absurd (hall p (List.mem_cons_self p rest)) hp

/-! ## Lemmas about decimal renderings and the metric name -/

theorem digitChar_isDigit : ∀ d : Nat, d < 10 → (Nat.digitChar d).isDigit = true := by decide

/-- Decimal value of a digit character, the inverse of `Nat.digitChar` on
digits. -/
def charVal (c : Char) : Nat := c.toNat - 48

theorem charVal_digitChar : ∀ d : Nat, d < 10 → charVal (Nat.digitChar d) = d := by decide

theorem map_charVal_map_digitChar (l : List Nat) (h : ∀ d ∈ l, d < 10) :
    (l.map Nat.digitChar).map charVal = l := by
  induction l with
  | nil => rfl
  | cons d t ih =>
    simp only [List.map_cons, List.cons.injEq]
    exact ⟨charVal_digitChar d (h d (List.mem_cons_self d t)),
      ih (fun x hx => h x (List.mem_cons_of_mem d hx))⟩

theorem natChars_ne_nil (n : Nat) : natChars n ≠ [] := by
  rw [natChars]
  by_cases h : n = 0
  · rw [if_pos h]
    simp
  · rw [if_neg h]
    simp only [ne_eq, List.map_eq_nil_iff, List.reverse_eq_nil_iff]
    exact Nat.digits_ne_nil_iff_ne_zero.mpr h

theorem natChars_isDigit (n : Nat) : ∀ c ∈ natChars n, c.isDigit = true := by
  intro c hc
  rw [natChars] at hc
  by_cases h : n = 0
  · rw [if_pos h] at hc
    simp at hc
    subst hc
    decide
  · rw [if_neg h] at hc
    simp only [List.mem_map, List.mem_reverse] at hc
    obtain ⟨d, hd, rfl⟩ := hc
    exact digitChar_isDigit d (Nat.digits_lt_base (by norm_num) hd)

theorem natChars_inj {m n : Nat} (h : natChars m = natChars n) : m = n := by
  have key : ∀ k : Nat, (natChars k).map charVal =
      if k = 0 then [0] else (Nat.digits 10 k).reverse := by
    intro k
    rw [natChars]
    by_cases hk : k = 0
    · rw [if_pos hk, if_pos hk]
      rfl
    · rw [if_neg hk, if_neg hk]
      exact map_charVal_map_digitChar _ (fun d hd =>
        Nat.digits_lt_base (by norm_num) (List.mem_reverse.mp hd))
  have h' := congrArg (List.map charVal) h
  rw [key m, key n] at h'
  by_cases hm : m = 0 <;> by_cases hn : n = 0
  · rw [hm, hn]
  · rw [if_pos hm, if_neg hn] at h'
    have hd : Nat.digits 10 n = [0] := by
      have h2 := congrArg List.reverse h'
      simpa using h2.symm
    have h0 := Nat.ofDigits_digits 10 n
    rw [hd] at h0
    simp [Nat.ofDigits] at h0
    exact absurd h0.symm hn
  · rw [if_neg hm, if_pos hn] at h'
    have hd : Nat.digits 10 m = [0] := by
      have h2 := congrArg List.reverse h'
      simpa using h2
    have h0 := Nat.ofDigits_digits 10 m
    rw [hd] at h0
    simp [Nat.ofDigits] at h0
    exact absurd h0.symm hm
  · rw [if_neg hm, if_neg hn] at h'
    have hdig : Nat.digits 10 m = Nat.digits 10 n := by
      have h2 := congrArg List.reverse h'
      simpa using h2
    calc m = Nat.ofDigits 10 (Nat.digits 10 m) := (Nat.ofDigits_digits 10 m).symm
    _ = Nat.ofDigits 10 (Nat.digits 10 n) := by rw [hdig]
    _ = n := Nat.ofDigits_digits 10 n

theorem intChars_inj {i j : Int} (h : intChars i = intChars j) : i = j := by
  rw [intChars, intChars] at h
  by_cases hi : i < 0 <;> by_cases hj : j < 0
  · rw [if_pos hi, if_pos hj] at h
    simp only [List.cons.injEq, true_and] at h
    have := natChars_inj h
    omega
  · rw [if_pos hi, if_neg hj] at h
    cases hnc : natChars j.natAbs with
    | nil => exact absurd hnc (natChars_ne_nil _)
    | cons c t =>
      rw [hnc] at h
      have hc : c.isDigit = true :=
        natChars_isDigit _ c (by rw [hnc]; exact List.mem_cons_self c t)
      have hcc : '-' = c := by
        simpa using congrArg List.head? h
      rw [← hcc] at hc
      exact absurd hc (by decide)
  · rw [if_neg hi, if_pos hj] at h
    cases hnc : natChars i.natAbs with
    | nil => exact absurd hnc (natChars_ne_nil _)
    | cons c t =>
      rw [hnc] at h
      have hc : c.isDigit = true :=
        natChars_isDigit _ c (by rw [hnc]; exact List.mem_cons_self c t)
      have hcc : c = '-' := by
        simpa using congrArg List.head? h
      rw [hcc] at hc
      exact absurd hc (by decide)
  · rw [if_neg hi, if_neg hj] at h
    have := natChars_inj h
    omega

/-- Index of the first adjacent pair consisting of a dash followed by the
letter e, the marker that separates the rendered index from the
`elasticsearch-...` suffix of a metric name. -/
def firstDashE : List Char → Nat
  | [] => 0
  | c :: rest => if c = '-' ∧ rest.head? = some 'e' then 0 else firstDashE rest + 1

theorem firstDashE_cons (c : Char) (rest : List Char) :
    firstDashE (c :: rest) =
      if c = '-' ∧ rest.head? = some 'e' then 0 else firstDashE rest + 1 := rfl

theorem firstDashE_digits_append (l : List Char) (hl : ∀ c ∈ l, c.isDigit = true)
    (rest : List Char) : firstDashE (l ++ '-' :: 'e' :: rest) = l.length := by
  induction l with
  | nil =>
    rw [List.nil_append, firstDashE_cons, if_pos ⟨rfl, by rw [List.head?_cons]⟩]
    rfl
  | cons c t ih =>
    have hc : c.isDigit = true := hl c (List.mem_cons_self c t)
    have hc' : ¬(c = '-' ∧ (t ++ '-' :: 'e' :: rest).head? = some 'e') := by
      rintro ⟨rfl, -⟩
      exact absurd hc (by decide)
    rw [List.cons_append, firstDashE_cons, if_neg hc', List.length_cons,
      ih (fun x hx => hl x (List.mem_cons_of_mem c hx))]

theorem firstDashE_intChars (i : Int) (rest : List Char) :
    firstDashE (intChars i ++ '-' :: 'e' :: rest) = (intChars i).length := by
  rw [intChars]
  by_cases hi : i < 0
  · rw [if_pos hi]
    cases hnc : natChars i.natAbs with
    | nil => exact absurd hnc (natChars_ne_nil _)
    | cons c t =>
      have hdig : ∀ x ∈ c :: t, x.isDigit = true := by
        rw [← hnc]
        exact natChars_isDigit _
      have hc : c.isDigit = true := hdig c (List.mem_cons_self c t)
      have hcond : ¬('-' = '-' ∧ ((c :: t) ++ '-' :: 'e' :: rest).head? = some 'e') := by
        rintro ⟨-, hh⟩
        rw [List.cons_append, List.head?_cons, Option.some.injEq] at hh
        rw [hh] at hc
        exact absurd hc (by decide)
      rw [List.cons_append, firstDashE_cons, if_neg hcond, List.length_cons,
        firstDashE_digits_append (c :: t) hdig rest, List.length_cons]
  · rw [if_neg hi]
    exact firstDashE_digits_append _ (natChars_isDigit _) rest

theorem intChars_marker_inj {a b : Int} {ra rb : List Char}
    (h : intChars a ++ '-' :: 'e' :: ra = intChars b ++ '-' :: 'e' :: rb) :
    a = b ∧ ra = rb := by
  have hlen : (intChars a).length = (intChars b).length := by
    have h1 := firstDashE_intChars a ra
    have h2 := firstDashE_intChars b rb
    rw [h, h2] at h1
    exact h1.symm
  obtain ⟨h3, h4⟩ := List.append_inj h hlen
  refine ⟨intChars_inj h3, ?_⟩
  simpa using h4

theorem metricName_inj {t1 t2 : Int} {s1 s2 : String}
    (h : GenerateMetricNameWithIndex t1 (NormalizeString ("elasticsearch-" ++ s1)) =
        GenerateMetricNameWithIndex t2 (NormalizeString ("elasticsearch-" ++ s2))) :
    t1 = t2 ∧ s1 = s2 := by
  rw [GenerateMetricNameWithIndex, GenerateMetricNameWithIndex,
    NormalizeString, NormalizeString] at h
  have hdata : ∀ s : String,
      ("elasticsearch-" ++ s).data = 'e' :: ("lasticsearch-".data ++ s.data) := by
    intro s
    rw [String.data_append]
    rfl
  have h' : intChars t1 ++ '-' :: ("elasticsearch-" ++ s1).data =
      intChars t2 ++ '-' :: ("elasticsearch-" ++ s2).data := congrArg String.data h
  rw [hdata s1, hdata s2] at h'
  obtain ⟨ht, hs⟩ := intChars_marker_inj h'
  refine ⟨ht, String.ext ?_⟩
  exact List.append_cancel_left hs

/-! ## Truncation toward zero -/

theorem intTrunc_eq_floor_or_ceil (q : ℚ) :
    intTrunc q = if 0 ≤ q then ⌊q⌋ else ⌈q⌉ := by
  rw [intTrunc]
  by_cases hq : 0 ≤ q
  · rw [if_pos hq]
    rcases eq_or_lt_of_le hq with heq | hlt
    · rw [← heq]
      simp [Rat.zero_num]
    · have hnum : 0 < q.num := Rat.num_pos.mpr hlt
      rw [Int.sign_eq_one_of_pos hnum, one_mul]
      have h1 : ⌊q⌋ = q.num / (q.den : ℤ) := by
        conv_lhs => rw [← Rat.num_div_den q]
        exact Rat.floor_intCast_div_natCast q.num q.den
      have h2 : ((q.num.natAbs / q.den : ℕ) : ℤ) = (q.num.natAbs : ℤ) / (q.den : ℤ) := by
        exact_mod_cast rfl
      rw [h1, h2, Int.natAbs_of_nonneg hnum.le]
  · rw [if_neg hq]
    have hlt : q < 0 := lt_of_not_ge hq
    have hnum : q.num < 0 := Rat.num_neg.mpr hlt
    rw [Int.sign_eq_neg_one_of_neg hnum]
    have hceil : ⌈q⌉ = -⌊-q⌋ := by
      rw [Int.floor_neg]
      ring
    have h1 : ⌊-q⌋ = (-q.num) / (q.den : ℤ) := by
      conv_lhs => rw [← Rat.num_div_den (-q)]
      rw [Rat.neg_num, Rat.neg_den]
      exact Rat.floor_intCast_div_natCast (-q.num) q.den
    have h2 : ((q.num.natAbs / q.den : ℕ) : ℤ) = ((-q.num).natAbs : ℤ) / (q.den : ℤ) := by
      rw [Int.natAbs_neg]
      exact_mod_cast rfl
    have h3 : ((-q.num).natAbs : ℤ) = -q.num := Int.natAbs_of_nonneg (by omega)
    rw [hceil, h1, h2, h3]
    ring

/-! ## Concrete configurations used as test vectors -/

deriving instance DecidableEq for Except

theorem getValueFromSearch_string_eq (st : String) (nu : ℚ) :
    getValueFromSearch ⟨GjsonType.String, st, nu⟩ =
      (match goAtoi st with
        | some q => Except.ok q
        | none => Except.error (invalidTypeMsg st)) := rfl

theorem getValueFromSearch_number_eq (st : String) (nu : ℚ) :
    getValueFromSearch ⟨GjsonType.Number, st, nu⟩ = Except.ok (intTrunc nu) := rfl

/-- A configuration with every mandatory field present and a parameter list
consisting of the single malformed token `noColonToken` (no colon). -/
def cfgMalformedParam : ScalerConfig :=
  { TriggerMetadata := fun k =>
      if k = "addresses" then some "http://localhost:9200"
      else if k = "index" then some "idx"
      else if k = "searchTemplateName" then some "tmpl"
      else if k = "valueLocation" then some "hits.total.value"
      else if k = "targetValue" then some "5"
      else if k = "parameters" then some "noColonToken"
      else none
    AuthParams := fun _ => none
    ResolvedEnv := fun _ => none }

/-- The metadata `parseElasticsearchMetadata` produces for
`cfgMalformedParam`. -/
def metaMalformed : elasticsearchMetadata :=
  { addresses := ["http://localhost:9200"], insecureSsl := false, username := "",
    password := "", indexes := ["idx"], searchTemplateName := "tmpl",
    parameters := ["noColonToken"], valueLocation := "hits.total.value", targetValue := 5 }

/-- Metadata with the given template name and parameter token list and
neutral values in the remaining fields, for exercising `buildQuery`. -/
def mkMeta (name : String) (ps : List String) : elasticsearchMetadata :=
  { addresses := [], insecureSsl := false, username := "", password := "", indexes := [],
    searchTemplateName := name, parameters := ps, valueLocation := "", targetValue := 0 }

/-! ## Claim theorems -/

/-- Claim C1: for every resolution outcome of the path expression on the response
body, when the path does not resolve (tag `Null`) or resolves to a boolean,
array or object (tags `False`, `True`, `JSON`), `getValueFromSearch` fails
with the invalid-type error citing the name of the tag; when it resolves to
a string that does not parse as an integer it fails citing the literal
string; and a successful result arises only from a number or from a string
that parsed to exactly the returned integer — never from a substituted
default. -/
theorem getValueFromSearch_invalid_type (r : GjsonResult) :
    (r.type = GjsonType.Null ∨ r.type = GjsonType.False ∨ r.type = GjsonType.True ∨
        r.type = GjsonType.JSON →
      getValueFromSearch r = Except.error (invalidTypeMsg (gjsonTypeName r.type))) ∧
    (r.type = GjsonType.String → goAtoi r.str = none →
      getValueFromSearch r = Except.error (invalidTypeMsg r.str)) ∧
    (∀ v : Int, getValueFromSearch r = Except.ok v →
      r.type = GjsonType.Number ∨ (r.type = GjsonType.String ∧ goAtoi r.str = some v)) := by
  obtain ⟨ty, st, nu⟩ := r
  refine ⟨?_, ?_, ?_⟩
  · rintro (rfl | rfl | rfl | rfl) <;> rfl
  · rintro rfl hat
    rw [getValueFromSearch_string_eq, hat]
  · intro v hv
    cases ty with
    | Number => exact Or.inl rfl
    | String =>
      refine Or.inr ⟨rfl, ?_⟩
      rw [getValueFromSearch_string_eq] at hv
      cases hat : goAtoi st with
      | none => rw [hat] at hv; exact absurd hv (by simp)
      | some k =>
        rw [hat] at hv
        have h2 : Except.ok (ε := String) k = Except.ok v := hv
        injection h2 with h3
        rw [h3]
    | Null => exact absurd hv (by simp [getValueFromSearch])
    | False => exact absurd hv (by simp [getValueFromSearch])
    | True => exact absurd hv (by simp [getValueFromSearch])
    | JSON => exact absurd hv (by simp [getValueFromSearch])

/-- Claim C1 witness: concrete instances — an unresolved path (tag `Null`), an
array/object result (tag `JSON`) and an unparsable string all fail with the
invalid-type error and never yield a defaulted success. -/
theorem getValueFromSearch_invalid_type_witness :
    getValueFromSearch ⟨GjsonType.Null, "", 0⟩ = Except.error (invalidTypeMsg "Null") ∧
    getValueFromSearch ⟨GjsonType.JSON, "", 0⟩ = Except.error (invalidTypeMsg "JSON") ∧
    getValueFromSearch ⟨GjsonType.String, "abc", 0⟩ = Except.error (invalidTypeMsg "abc") :=
  ⟨(getValueFromSearch_invalid_type ⟨GjsonType.Null, "", 0⟩).1 (Or.inl rfl),
    (getValueFromSearch_invalid_type ⟨GjsonType.JSON, "", 0⟩).1
      (Or.inr (Or.inr (Or.inr rfl))),
    (getValueFromSearch_invalid_type ⟨GjsonType.String, "abc", 0⟩).2.1 rfl (by decide)⟩

/-- Claim C2: a path resolving to a JSON number yields the truncation of that
number toward zero (floor for non-negative values, ceiling for negative
ones — truncation, not rounding), and a path resolving to a string that
parses as an integer yields that integer; in particular the number `42`
and the string `42` both yield the integer `42`. -/
theorem getValueFromSearch_numeric (r : GjsonResult) :
    (r.type = GjsonType.Number →
      getValueFromSearch r = Except.ok (intTrunc r.num) ∧
      intTrunc r.num = if 0 ≤ r.num then ⌊r.num⌋ else ⌈r.num⌉) ∧
    (∀ k : Int, r.type = GjsonType.String → goAtoi r.str = some k →
      getValueFromSearch r = Except.ok k) ∧
    (r.type = GjsonType.Number → r.num = 42 → getValueFromSearch r = Except.ok 42) ∧
    (r.type = GjsonType.String → r.str = "42" → getValueFromSearch r = Except.ok 42) := by
  obtain ⟨ty, st, nu⟩ := r
  refine ⟨?_, ?_, ?_, ?_⟩
  · rintro rfl
    exact ⟨rfl, intTrunc_eq_floor_or_ceil nu⟩
  · rintro k rfl hat
    rw [getValueFromSearch_string_eq, hat]
  · rintro rfl rfl
    rw [getValueFromSearch_number_eq]
    have h42 : intTrunc 42 = 42 := by decide
    rw [h42]
  · rintro rfl rfl
    rw [getValueFromSearch_string_eq]
    decide

/-- The rational seven halves, written with explicit numerator and
denominator so that its fields reduce by evaluation. -/
def sevenHalves : ℚ := ⟨7, 2, by norm_num, by norm_num⟩

/-- Claim C2 witness: concrete instances at the number `42` and the string `42`,
plus a fractional number showing truncation rather than rounding. -/
theorem getValueFromSearch_numeric_witness :
    getValueFromSearch ⟨GjsonType.Number, "", 42⟩ = Except.ok 42 ∧
    getValueFromSearch ⟨GjsonType.String, "42", 0⟩ = Except.ok 42 ∧
    getValueFromSearch ⟨GjsonType.Number, "", sevenHalves⟩ = Except.ok 3 :=
  ⟨(getValueFromSearch_numeric ⟨GjsonType.Number, "", 42⟩).2.2.1 rfl rfl,
    (getValueFromSearch_numeric ⟨GjsonType.String, "42", 0⟩).2.2.2 rfl rfl,
    ((getValueFromSearch_numeric ⟨GjsonType.Number, "", sevenHalves⟩).1 rfl).1.trans
      (by decide)⟩

/-- Claim C3: the code accepts a configuration whose parameter list contains a
token without a colon — `parseElasticsearchMetadata` succeeds, a scaler is
returned, and the malformed token is only hit at poll time where
`buildQuery` reads index 1 of a one-element split (a runtime panic,
modelled as `none`). The claim that such a configuration fails construction
is contradicted by the code. -/
theorem construction_accepts_malformed_parameter_token :
    parseElasticsearchMetadata cfgMalformedParam = Except.ok metaMalformed ∧
    metaMalformed.parameters = ["noColonToken"] ∧
    NewElasticsearchScaler cfgMalformedParam (Except.ok 0) =
      Except.ok { metadata := metaMalformed, esClient := 0 } ∧
    buildQuery metaMalformed = none :=
  ⟨rfl, rfl, rfl, rfl⟩

/-- Claim C5: `buildQuery` hits the out-of-range index (modelled as `none`)
exactly when some non-empty parameter token contains no colon, and nothing
at construction time rules that out: `cfgMalformedParam` passes
`parseElasticsearchMetadata` yet makes `buildQuery` panic at poll time. -/
theorem buildQuery_oob_iff_token_without_colon :
    (∀ m : elasticsearchMetadata,
      buildQuery m = none ↔ ∃ p ∈ m.parameters, p ≠ "" ∧ ':' ∉ p.data) ∧
    parseElasticsearchMetadata cfgMalformedParam = Except.ok metaMalformed ∧
    buildQuery metaMalformed = none := by
  refine ⟨fun m => ?_, rfl, rfl⟩
  rw [← buildParamsLoop_eq_none_iff m.parameters []]
  rw [buildQuery]
  cases hl : buildParamsLoop [] m.parameters with
  | none => simp [hl]
  | some mp => simp [hl]

/-- Claim C10: `Close` always succeeds, never mutates the scaler, and calling it
again on the result succeeds as well. -/
theorem close_always_succeeds (s : elasticsearchScaler) :
    Close s = (s, none) ∧
    (Close s).2 = none ∧
    Close (Close s).1 = (s, none) :=
  ⟨rfl, rfl, rfl⟩

/-- Claim C4 counterexample: for the token `a:b:c` the code splits on every colon
and stores the segment between the first and second colon, so the produced
mapping value is `b`, not the entire remainder `b:c` after the first colon
as the claim states. -/
theorem buildQuery_counterexample_multi_colon :
    buildQuery (mkMeta "tmpl" ["a:b:c"]) =
      some { id := "tmpl", params := some [("a", "b")] } ∧
    buildQuery (mkMeta "tmpl" ["a:b:c"]) ≠
      some { id := "tmpl", params := some [("a", "b:c")] } := by
  refine ⟨rfl, ?_⟩
  decide

/-- Claim C4 (amended): `buildQuery` produces a document whose `id` is the
template name and whose `params` field is present exactly when the
accumulated mapping is non-empty, where the mapping skips empty tokens,
splits every other token on all colons (segments trimmed of spaces) taking
the first segment as key and the second segment as value, and later
duplicate keys overwrite earlier ones; with no parameters `params` is
omitted and `a:b` produces the single pair `(a, b)`. -/
theorem buildQuery_shape :
    (∀ m : elasticsearchMetadata, (∀ p ∈ m.parameters, p ≠ "" → ':' ∈ p.data) →
      ∃ mp, buildParamsLoop [] m.parameters = some mp ∧
        buildQuery m = some { id := m.searchTemplateName
                              params := if 0 < mp.length then some mp else none } ∧
        (mp = [] ↔ ∀ p ∈ m.parameters, p = "")) ∧
    (∀ name : String, buildQuery (mkMeta name []) = some { id := name, params := none }) ∧
    buildQuery (mkMeta "tmpl" ["a:b"]) = some { id := "tmpl", params := some [("a", "b")] } ∧
    buildQuery (mkMeta "tmpl" ["a:b:c"]) = some { id := "tmpl", params := some [("a", "b")] } ∧
    buildQuery (mkMeta "tmpl" ["", "a:b"]) =
      some { id := "tmpl", params := some [("a", "b")] } ∧
    buildQuery (mkMeta "tmpl" ["a:b", "a:c"]) =
      some { id := "tmpl", params := some [("a", "c")] } := by
  refine ⟨?_, fun name => rfl, rfl, rfl, rfl, rfl⟩
  intro m hm
  cases hl : buildParamsLoop [] m.parameters with
  | none =>
    rw [buildParamsLoop_eq_none_iff] at hl
    obtain ⟨p, hp, h1, h2⟩ := hl
    exact absurd (hm p hp h1) h2
  | some mp =>
    refine ⟨mp, rfl, ?_, ?_⟩
    · unfold buildQuery
      rw [hl]
      rfl
    · have hnil := buildParamsLoop_res_nil_iff m.parameters [] mp hl
      rw [hnil]
      simp

/-- Claim C4 witness: the shape theorem instantiated at the single token `a:b`,
whose precondition (every non-empty token contains a colon) holds. -/
theorem buildQuery_shape_witness :
    ∃ mp, buildParamsLoop [] (mkMeta "tmpl" ["a:b"]).parameters = some mp ∧
      buildQuery (mkMeta "tmpl" ["a:b"]) =
        some { id := (mkMeta "tmpl" ["a:b"]).searchTemplateName
               params := if 0 < mp.length then some mp else none } ∧
      (mp = [] ↔ ∀ p ∈ (mkMeta "tmpl" ["a:b"]).parameters, p = "") :=
  buildQuery_shape.1 (mkMeta "tmpl" ["a:b"]) (by decide)

/-- Claim C6 counterexample: when the pipeline fails the two operations do not
raise the identical error — `IsActive` propagates it unchanged while
`GetMetrics` returns it wrapped with a prefix. -/
theorem isActive_getMetrics_errors_differ :
    errorOf (IsActive (Except.error "connection refused")) = some "connection refused" ∧
    errorOf (GetMetrics "m" (Except.error "connection refused")) =
      some "error inspecting elasticsearch: connection refused" ∧
    errorOf (IsActive (Except.error "connection refused")) ≠
      errorOf (GetMetrics "m" (Except.error "connection refused")) := by
  refine ⟨rfl, rfl, ?_⟩
  decide

/-- Claim C6 (amended): `IsActive` answers `true` exactly when the pipeline value
is strictly positive and `false` when it is zero or negative; on a pipeline
failure both operations fail — `IsActive` propagates the pipeline error
unchanged and `GetMetrics` returns the same error wrapped with the prefix
`error inspecting elasticsearch: ` — and neither maps the failure to an
inactive or zero result. -/
theorem isActive_getMetrics_pipeline (t : Except String GjsonResult) (name : String) :
    (∀ n : Int, getQueryResult t = Except.ok n →
      (IsActive t = Except.ok true ↔ 0 < n) ∧
      IsActive t = Except.ok (decide (0 < n)) ∧
      GetMetrics name t = Except.ok { metricName := name, value := n }) ∧
    (∀ e : String, getQueryResult t = Except.error e →
      IsActive t = Except.error e ∧
      GetMetrics name t = Except.error ("error inspecting elasticsearch: " ++ e)) := by
  constructor
  · intro n hn
    refine ⟨?_, ?_, ?_⟩
    · simp [IsActive, hn, decide_eq_true_eq]
    · simp [IsActive, hn]
    · simp [GetMetrics, hn]
  · intro e he
    exact ⟨by simp [IsActive, he], by simp [GetMetrics, he]⟩

/-- Claim C6 witness: the pipeline theorem at a positive value, at zero, and at a
failing pipeline. -/
theorem isActive_getMetrics_pipeline_witness :
    IsActive (Except.ok ⟨GjsonType.Number, "", 42⟩) = Except.ok true ∧
    IsActive (Except.ok ⟨GjsonType.Number, "", 0⟩) = Except.ok false ∧
    IsActive (Except.error "boom") = Except.error "boom" ∧
    GetMetrics "m" (Except.error "boom") =
      Except.error ("error inspecting elasticsearch: " ++ "boom") :=
  ⟨((isActive_getMetrics_pipeline (Except.ok ⟨GjsonType.Number, "", 42⟩) "m").1 42
      (by decide)).2.1,
    ((isActive_getMetrics_pipeline (Except.ok ⟨GjsonType.Number, "", 0⟩) "m").1 0
      (by decide)).2.1,
    ((isActive_getMetrics_pipeline (Except.error "boom") "m").2 "boom" rfl).1,
    ((isActive_getMetrics_pipeline (Except.error "boom") "m").2 "boom" rfl).2⟩

/-- Claim C7: the metric descriptor is a deterministic function of the resolved
metadata — the metric names of two scalers coincide exactly when both the
search template name and the target value coincide — and the target is an
average-value target equal to `targetValue`. -/
theorem getMetricSpec_deterministic_injective (m1 m2 : elasticsearchMetadata) :
    ((GetMetricSpecForScaling m1).name = (GetMetricSpecForScaling m2).name ↔
      (m1.searchTemplateName = m2.searchTemplateName ∧ m1.targetValue = m2.targetValue)) ∧
    (GetMetricSpecForScaling m1).target.type = "AverageValue" ∧
    (GetMetricSpecForScaling m1).target.averageValue = m1.targetValue := by
  refine ⟨⟨fun h => ?_, fun h => ?_⟩, rfl, rfl⟩
  · have h' : GenerateMetricNameWithIndex m1.targetValue
        (NormalizeString ("elasticsearch-" ++ m1.searchTemplateName)) =
        GenerateMetricNameWithIndex m2.targetValue
        (NormalizeString ("elasticsearch-" ++ m2.searchTemplateName)) := h
    have h2 := metricName_inj h'
    exact ⟨h2.2, h2.1⟩
  · obtain ⟨h1, h2⟩ := h
    simp only [GetMetricSpecForScaling, h1, h2]

/-- The splitting rule exactly as the claim words it: separator-delimited
tokens (the independent `List.splitOn` specification) each trimmed of
surrounding whitespace in the `Char.isWhitespace` sense. -/
def splitAndTrimWhitespace (s : String) (sep : Char) : List String :=
  (s.data.splitOn sep).map (fun l => String.mk (trimBy Char.isWhitespace l))

/-- Claim C8 counterexample: the code trims only the space character, not all
whitespace — a token with a leading tab keeps its tab, while trimming
whitespace as the claim states would remove it. -/
theorem splitAndTrimBySep_whitespace_counterexample :
    splitAndTrimBySep (String.mk ['\t', 'a']) ';' = [String.mk ['\t', 'a']] ∧
    splitAndTrimWhitespace (String.mk ['\t', 'a']) ';' = ["a"] ∧
    splitAndTrimBySep (String.mk ['\t', 'a']) ';' ≠
      splitAndTrimWhitespace (String.mk ['\t', 'a']) ';' := by
  refine ⟨?_, ?_, ?_⟩ <;> decide

/-- Claim C8 (amended): `splitAndTrimBySep` returns the ordered sequence of
separator-delimited tokens (it agrees with the independent `List.splitOn`
specification), each trimmed of surrounding space characters only (U+0020),
preserving empty tokens positionally (one more token than separator
occurrences); no produced token starts or ends with a space, and the
spec example splits as `a`, `b`, `c`. -/
theorem splitAndTrimBySep_spec (s : String) (sep : Char) :
    splitAndTrimBySep s sep =
      (s.data.splitOn sep).map (fun l => String.mk (trimBy (fun c => c = ' ') l)) ∧
    (splitAndTrimBySep s sep).length = s.data.count sep + 1 ∧
    (∀ t ∈ splitAndTrimBySep s sep, t.data.head? ≠ some ' ' ∧ t.data.getLast? ≠ some ' ') ∧
    splitAndTrimBySep "  a ; b;c  " ';' = ["a", "b", "c"] := by
  refine ⟨?_, length_splitAndTrimBySep s sep, ?_, by decide⟩
  · rw [splitAndTrimBySep, splitCh_eq_splitOn]
  · intro t ht
    rw [splitAndTrimBySep] at ht
    simp only [List.mem_map] at ht
    obtain ⟨l, hl, rfl⟩ := ht
    constructor
    · intro hh
      have hfalse := head?_trimBy (fun c => c = ' ') l ' ' hh
      simp at hfalse
    · intro hh
      have hfalse := getLast?_trimBy (fun c => c = ' ') l ' ' hh
      simp at hfalse

theorem except_bind_ok {α β : Type} {x : Except String α} {f : α → Except String β} {b : β}
    (h : x >>= f = Except.ok b) : ∃ a, x = Except.ok a ∧ f a = Except.ok b := by
  cases x with
  | error e => exact absurd h (by simp [Bind.bind, Except.bind])
  | ok a =>
    refine ⟨a, rfl, ?_⟩
    simpa [Bind.bind, Except.bind] using h

theorem parse_ok_username_password (config : ScalerConfig) (m : elasticsearchMetadata)
    (hok : parseElasticsearchMetadata config = Except.ok m) :
    m.username = (match config.AuthParams "username" with
      | some val => val
      | none => lookupD config.TriggerMetadata "username") ∧
    m.password = (if lookupD config.AuthParams "password" ≠ "" then
        lookupD config.AuthParams "password"
      else if lookupD config.TriggerMetadata "passwordFromEnv" ≠ "" then
        lookupD config.ResolvedEnv (lookupD config.TriggerMetadata "passwordFromEnv")
      else "") := by
  unfold parseElasticsearchMetadata at hok
  obtain ⟨addresses, h1, hok⟩ := except_bind_ok hok
  obtain ⟨ssl, h2, hok⟩ := except_bind_ok hok
  obtain ⟨index, h3, hok⟩ := except_bind_ok hok
  obtain ⟨stn, h4, hok⟩ := except_bind_ok hok
  obtain ⟨vloc, h5, hok⟩ := except_bind_ok hok
  obtain ⟨tvraw, h6, hok⟩ := except_bind_ok hok
  obtain ⟨tv, h7, hok⟩ := except_bind_ok hok
  injection hok with hrec
  subst hrec
  constructor
  · cases hau : config.AuthParams "username" with
    | some val => simp [hau]
    | none =>
      cases ht : config.TriggerMetadata "username" with
      | some val => simp [hau, ht, lookupD]
      | none => simp [hau, ht, lookupD]
  · rfl

/-- Claim C9: when both the auth-parameter map and the trigger metadata supply a
username, the resolved metadata carries the auth-parameter value, and the
trigger metadata value is used only when the auth map has no `username`
key; likewise a non-empty auth-parameter password always wins, and the
environment variable named by `passwordFromEnv` is consulted only when the
auth-parameter password is absent or empty. -/
theorem parse_auth_precedence (config : ScalerConfig) (m : elasticsearchMetadata)
    (hok : parseElasticsearchMetadata config = Except.ok m) :
    (∀ u, config.AuthParams "username" = some u → m.username = u) ∧
    (config.AuthParams "username" = none →
      m.username = lookupD config.TriggerMetadata "username") ∧
    (∀ p, config.AuthParams "password" = some p → p ≠ "" → m.password = p) ∧
    (lookupD config.AuthParams "password" = "" →
      ∀ e, config.TriggerMetadata "passwordFromEnv" = some e → e ≠ "" →
        m.password = lookupD config.ResolvedEnv e) := by
  obtain ⟨hu, hp⟩ := parse_ok_username_password config m hok
  refine ⟨?_, ?_, ?_, ?_⟩
  · intro u hau
    rw [hu, hau]
  · intro hau
    rw [hu, hau]
  · intro p hap hpne
    have hla : lookupD config.AuthParams "password" = p := by
      rw [lookupD, hap]
      rfl
    rw [hp, hla, if_pos hpne]
  · intro hempty e he hene
    have hle : lookupD config.TriggerMetadata "passwordFromEnv" = e := by
      rw [lookupD, he]
      rfl
    rw [hp, hempty, hle, if_neg (by simp), if_pos hene]

/-- A configuration in which the auth-parameter map and the trigger
metadata both supply a username and a password source. -/
def cfgAuthBoth : ScalerConfig :=
  { TriggerMetadata := fun k =>
      if k = "addresses" then some "http://localhost:9200"
      else if k = "index" then some "idx"
      else if k = "searchTemplateName" then some "tmpl"
      else if k = "valueLocation" then some "hits.total.value"
      else if k = "targetValue" then some "5"
      else if k = "username" then some "metaUser"
      else if k = "passwordFromEnv" then some "PASS_ENV"
      else none
    AuthParams := fun k =>
      if k = "username" then some "authUser"
      else if k = "password" then some "authPass"
      else none
    ResolvedEnv := fun k => if k = "PASS_ENV" then some "envPass" else none }

/-- The metadata `parseElasticsearchMetadata` produces for `cfgAuthBoth`. -/
def metaAuthBoth : elasticsearchMetadata :=
  { addresses := ["http://localhost:9200"], insecureSsl := false, username := "authUser",
    password := "authPass", indexes := ["idx"], searchTemplateName := "tmpl",
    parameters := [], valueLocation := "hits.total.value", targetValue := 5 }

/-- A configuration whose credentials come only from the trigger metadata
and the resolved environment. -/
def cfgEnvPass : ScalerConfig :=
  { TriggerMetadata := fun k =>
      if k = "addresses" then some "http://localhost:9200"
      else if k = "index" then some "idx"
      else if k = "searchTemplateName" then some "tmpl"
      else if k = "valueLocation" then some "hits.total.value"
      else if k = "targetValue" then some "5"
      else if k = "username" then some "metaUser"
      else if k = "passwordFromEnv" then some "PASS_ENV"
      else none
    AuthParams := fun _ => none
    ResolvedEnv := fun k => if k = "PASS_ENV" then some "envPass" else none }

/-- The metadata `parseElasticsearchMetadata` produces for `cfgEnvPass`. -/
def metaEnvPass : elasticsearchMetadata :=
  { addresses := ["http://localhost:9200"], insecureSsl := false, username := "metaUser",
    password := "envPass", indexes := ["idx"], searchTemplateName := "tmpl",
    parameters := [], valueLocation := "hits.total.value", targetValue := 5 }

/-- Claim C9 witness: with both sources present the auth username and password
win; with no auth parameters the trigger username and the environment
password are used. -/
theorem parse_auth_precedence_witness :
    metaAuthBoth.username = "authUser" ∧ metaAuthBoth.password = "authPass" ∧
    metaEnvPass.username = "metaUser" ∧ metaEnvPass.password = "envPass" :=
  ⟨(parse_auth_precedence cfgAuthBoth metaAuthBoth rfl).1 "authUser" rfl,
    (parse_auth_precedence cfgAuthBoth metaAuthBoth rfl).2.2.1 "authPass" rfl (by decide),
    (parse_auth_precedence cfgEnvPass metaEnvPass rfl).2.1 rfl,
    (parse_auth_precedence cfgEnvPass metaEnvPass rfl).2.2.2 rfl "PASS_ENV" rfl (by decide)⟩

end ElasticsearchScaler
